import Mathlib

/- Shallow embedding of rickkas7/SequentialFileRK.

   The embedding models the SequentialFile class of src/SequentialFileRK.cpp
   (and, for the registry claims, the older variant in src/unnamed/part_000).
   Machine ints are modelled as Int (file numbers stay tiny in every claim, so
   no overflow reduction is needed); the Particle String type is modelled as
   Lean String viewed as its list of characters (all paths and filenames in
   the claims are ASCII, where Particle's byte indexing and character indexing
   coincide).  The numeric pattern is fixed to the library default "%08d"
   (header line 256: String pattern = "%08d"); every claim concerns the
   default pattern.  The filesystem is passed explicitly as a directory
   listing, mirroring what readdir hands the scan loop. -/

namespace SeqFileRK

/-- Decimal digit character for a value 0..9, as produced by printf %d. -/
def digitChar : Nat → Char
  | 0 => '0' | 1 => '1' | 2 => '2' | 3 => '3' | 4 => '4'
  | 5 => '5' | 6 => '6' | 7 => '7' | 8 => '8' | _ => '9'

/-- Numeric value of a decimal digit character, as used by sscanf %d. -/
def digitVal (c : Char) : Nat := c.toNat - 48

/-- Value of a digit string read left to right, the accumulation sscanf %d
performs over the digits it consumes. -/
def digitsToNat (cs : List Char) : Nat :=
  cs.foldl (fun a c => 10 * a + digitVal c) 0

/-- Decimal digit list of a natural number, most significant digit first,
as printf %d renders it (a single digit for n < 10, no leading zeros). -/
def natDigits (n : Nat) : List Char :=
  if h : n < 10 then [digitChar n]
  else natDigits (n / 10) ++ [digitChar (n % 10)]
termination_by n
decreasing_by
  exact Nat.div_lt_self (by omega) (by omega)

/-- Zero padding to field width 8, the 08 flag of the default pattern %08d:
printf pads on the left with zeros up to width 8 and never truncates. -/
def pad8 (ds : List Char) : List Char :=
  List.replicate (8 - ds.length) (digitChar 0) ++ ds

/-- Rendering of String::format(pattern, fileNum) with the default pattern
%08d (SequentialFileRK.cpp line 201): zero padded decimal of width 8; a
negative value is rendered with a leading minus sign that counts toward the
field width, as printf does. -/
def format8d (n : Int) : String :=
  if n < 0 then
    String.mk ('-' :: (List.replicate (7 - (natDigits n.natAbs).length) (digitChar 0)
      ++ natDigits n.natAbs))
  else
    String.mk (pad8 (natDigits n.toNat))

/-- Maximal run of decimal digits at the front of the window, the digits the
%d conversion consumes; the conversion fails when the run is empty. -/
def scanDigits (cs : List Char) : Option Nat :=
  let ds := cs.takeWhile (fun ch => ch.isDigit)
  if ds = [] then none else some (digitsToNat ds)

/-- The %08d conversion applied to its 8-character window: an optional sign
(counting toward the width, as in C) followed by decimal digits; succeeds
iff at least one digit was read. -/
def sscanf8dWindow (w : List Char) : Option Int :=
  match w with
  | [] => none
  | c :: rest =>
    if c = '-' then (scanDigits rest).map (fun m => -(m : Int))
    else if c = '+' then (scanDigits rest).map (fun m => (m : Int))
    else (scanDigits (c :: rest)).map (fun m => (m : Int))

/-- Core of sscanf(name, "%08d", &fileNum) (SequentialFileRK.cpp line 109):
%d first skips whitespace, then reads at most 8 characters (the field width,
sign included) consisting of an optional sign followed by decimal digits; the
conversion succeeds, and sscanf returns 1, iff at least one digit was read.
Characters after the consumed digits (such as ".dat") are simply left
unconsumed and do not make the conversion fail. -/
def sscanf8dList (cs : List Char) : Option Int :=
  sscanf8dWindow ((cs.dropWhile (fun c => c.isWhitespace)).take 8)

/-- Result of sscanf(name, "%08d", &fileNum): some fileNum when the call
returns 1, none when it returns 0 or EOF. -/
def sscanf8d (s : String) : Option Int := sscanf8dList s.data

/-- Particle String::endsWith(suffix), modelled on the character level: true
iff suffix is a suffix of the string. -/
def particleEndsWith (s suffix : String) : Bool :=
  suffix.data.isSuffixOf s.data

/-- SequentialFile::getNameWithOptionalExt (SequentialFileRK.cpp lines
334-343): appends "." and ext when ext is non-null and nonempty; a null
extension pointer is modelled as the empty string. -/
def getNameWithOptionalExt (name ext : String) : String :=
  if ext.isEmpty then name else name ++ "." ++ ext

/-- One readdir entry: its d_name and whether d_type == DT_REG. -/
structure DirEntry where
  name : String
  isRegularFile : Bool
deriving DecidableEq, Repr

/-- The filesystem view one scanDir call sees: whether createDirIfNecessary
and opendir both succeed, and the sequence of entries readdir yields. -/
structure DirListing where
  createAndOpenOk : Bool
  entries : List DirEntry
deriving DecidableEq, Repr

/-- In-memory state of a SequentialFile object (SequentialFileRK.h lines
251-262).  The pattern field always holds its default "%08d" in every claim,
so it is folded into the render and parse functions rather than stored. -/
structure SeqFile where
  dirPath : String
  filenameExtension : String
  scanDirCompleted : Bool
  lastFileNum : Int
  queue : List Int
deriving DecidableEq, Repr

/-- SequentialFile::withDirPath (SequentialFileRK.cpp lines 68-74): stores
the path, then, when the stored path ends with "/", removes the last
character (one substring(0, length-1) call, executed once). -/
def withDirPath (s : String) : String :=
  if particleEndsWith s "/" then String.mk s.data.dropLast else s

/-- Acceptance test scanDir applies to one filename (SequentialFileRK.cpp
lines 108-110): sscanf with the default pattern must return 1, and when a
filename extension is configured the name must end with it. -/
def parseFileName (ext name : String) : Option Int :=
  match sscanf8d name with
  | some n => if ext.isEmpty || particleEndsWith name ext then some n else none
  | none => none

/-- Body of the scanDir loop for one regular-file entry (SequentialFileRK.cpp
lines 108-122): on acceptance the number raises lastFileNum when larger and
is pushed on the back of the queue.  preScanAddHook is the base-class
implementation, which always returns true (SequentialFileRK.h line 237). -/
def scanDirStep (sf : SeqFile) (name : String) : SeqFile :=
  match parseFileName sf.filenameExtension name with
  | some n =>
    { sf with
      lastFileNum := if n > sf.lastFileNum then n else sf.lastFileNum,
      queue := sf.queue ++ [n] }
  | none => sf

/-- SequentialFile::scanDir (SequentialFileRK.cpp lines 77-129): fails on a
directory path of length at most 1 or when the directory cannot be created
or opened, leaving the state untouched; otherwise resets lastFileNum to 0,
folds the loop body over the regular-file entries, and sets
scanDirCompleted. -/
def scanDir (sf : SeqFile) (fs : DirListing) : SeqFile × Bool :=
  if sf.dirPath.length ≤ 1 then (sf, false)
  else if fs.createAndOpenOk = false then (sf, false)
  else
    let sf1 := { sf with lastFileNum := 0 }
    let sf2 := fs.entries.foldl
      (fun acc e => if e.isRegularFile then scanDirStep acc e.name else acc) sf1
    ({ sf2 with scanDirCompleted := true }, true)

/-- Lazy scan every queue operation starts with: scanDir runs iff
scanDirCompleted is still false. -/
def ensureScanned (sf : SeqFile) (fs : DirListing) : SeqFile :=
  if sf.scanDirCompleted then sf else (scanDir sf fs).1

/-- SequentialFile::reserveFile (SequentialFileRK.cpp lines 131-137):
after the lazy scan, pre-increments lastFileNum and returns it. -/
def reserveFile (sf : SeqFile) (fs : DirListing) : SeqFile × Int :=
  let sf1 := ensureScanned sf fs
  ({ sf1 with lastFileNum := sf1.lastFileNum + 1 }, sf1.lastFileNum + 1)

/-- SequentialFile::addFileToQueue (SequentialFileRK.cpp lines 139-150):
after the lazy scan, folds fileNum into lastFileNum and pushes it on the
back of the queue, with no duplicate or validity check. -/
def addFileToQueue (sf : SeqFile) (fs : DirListing) (fileNum : Int) : SeqFile :=
  let sf1 := ensureScanned sf fs
  let sf2 := if fileNum > sf1.lastFileNum then { sf1 with lastFileNum := fileNum } else sf1
  { sf2 with queue := sf2.queue ++ [fileNum] }

/-- SequentialFile::getFileFromQueue (SequentialFileRK.cpp lines 152-173):
after the lazy scan, returns 0 when the queue is empty; otherwise returns the
front element, popping it when remove is true. -/
def getFileFromQueue (sf : SeqFile) (fs : DirListing) (remove : Bool) : SeqFile × Int :=
  let sf1 := ensureScanned sf fs
  match sf1.queue with
  | [] => (sf1, 0)
  | n :: rest => (if remove then { sf1 with queue := rest } else sf1, n)

/-- SequentialFile::getQueueLen (SequentialFileRK.cpp lines 275-281). -/
def getQueueLen (sf : SeqFile) : Nat := sf.queue.length

/-- In-memory effect of SequentialFile::removeAll (SequentialFileRK.cpp
lines 243-273): clears the queue, resets lastFileNum to 0 and clears
scanDirCompleted so the next access rescans; the on-disk deletions and the
optional rmdir act only on the modelled-away filesystem. -/
def removeAll (sf : SeqFile) : SeqFile :=
  { sf with queue := [], lastFileNum := 0, scanDirCompleted := false }

/-- SequentialFile::getNameForFileNum (SequentialFileRK.cpp lines 200-204)
with the default pattern: renders the number through %08d and appends the
configured extension, or the override extension when one is supplied. -/
def getNameForFileNum (sf : SeqFile) (fileNum : Int) (overrideExt : Option String) : String :=
  getNameWithOptionalExt (format8d fileNum)
    (match overrideExt with | some e => e | none => sf.filenameExtension)

/-- Enqueue a list of file numbers in order by repeated addFileToQueue. -/
def enqueueAll (sf : SeqFile) (fs : DirListing) (ns : List Int) : SeqFile :=
  ns.foldl (fun acc n => addFileToQueue acc fs n) sf

/-- Perform k removing dequeues, returning the final state and the list of
returned file numbers in call order. -/
def dequeueN (sf : SeqFile) (fs : DirListing) : Nat → SeqFile × List Int
  | 0 => (sf, [])
  | k + 1 =>
    let p := getFileFromQueue sf fs true
    let q := dequeueN p.1 fs k
    (q.1, p.2 :: q.2)

/-- Registry of the shared-instance variant (src/unnamed/part_000,
SequentialFileShared): the list of registered objects, each modelled as an
identifier paired with the dirPath it was constructed with; addObject is
push_back. -/
def findByPathComputed (objects : List (Nat × String)) (dirPath : String) : Option Nat :=
  (objects.find? (fun o => o.2 = dirPath)).map (fun o => o.1)

/-- Value the local variable result of SequentialFile::getInstance
(src/unnamed/part_000 lines 352-359) holds when the body ends, granting the
lookup loop of findByPath its computed value: the found instance, or else a
freshly constructed one, which the constructor registers by push_back.
Returns that instance and the updated registry. -/
def getInstanceComputed (objects : List (Nat × String)) (freshId : Nat)
    (dirPath : String) : Nat × List (Nat × String) :=
  match findByPathComputed objects dirPath with
  | some i => (i, objects)
  | none => (freshId, objects ++ [(freshId, dirPath)])

/-- Value SequentialFile::getInstance actually hands its caller: the body
(src/unnamed/part_000 lines 352-359) contains no return statement at all
(and SequentialFileShared::findByPath, lines 55-66, likewise computes result
but never returns it), so no computed instance pointer reaches the caller;
the embedding records the absence of a returned value as none. -/
def getInstanceReturned (objects : List (Nat × String)) (freshId : Nat)
    (dirPath : String) : Option Nat :=
  none

/-- Every digit character carries back its value. -/
theorem digitVal_digitChar {d : Nat} (h : d < 10) : digitVal (digitChar d) = d := by
  interval_cases d <;> decide

/-- Digit characters satisfy Char.isDigit. -/
theorem isDigit_digitChar {d : Nat} (h : d < 10) : (digitChar d).isDigit = true := by
  interval_cases d <;> decide

/-- Digit characters are not whitespace. -/
theorem not_whitespace_digitChar {d : Nat} (h : d < 10) :
    (digitChar d).isWhitespace = false := by
  interval_cases d <;> decide

/-- Digit characters are not sign characters. -/
theorem digitChar_ne_sign {d : Nat} (h : d < 10) :
    digitChar d ≠ '-' ∧ digitChar d ≠ '+' := by
  interval_cases d <;> exact ⟨by decide, by decide⟩

/-- Appending one more digit multiplies the accumulated value by ten. -/
theorem digitsToNat_append (l : List Char) (c : Char) :
    digitsToNat (l ++ [c]) = 10 * digitsToNat l + digitVal c := by
  simp [digitsToNat, List.foldl_append]

/-- The decimal digit list of n evaluates back to n. -/
theorem digitsToNat_natDigits (n : Nat) : digitsToNat (natDigits n) = n := by
  induction n using Nat.strong_induction_on with
  | _ n ih =>
    rw [natDigits]
    split
    · next h =>
      simpa [digitsToNat] using digitVal_digitChar h
    · next h =>
      rw [digitsToNat_append, ih (n / 10) (Nat.div_lt_self (by omega) (by omega)),
        digitVal_digitChar (Nat.mod_lt n (by omega))]
      omega

/-- Every character of the decimal digit list is a digit character. -/
theorem mem_natDigits {n : Nat} {c : Char} (h : c ∈ natDigits n) :
    ∃ d, d < 10 ∧ c = digitChar d := by
  induction n using Nat.strong_induction_on with
  | _ n ih =>
    rw [natDigits] at h
    split at h
    · next h10 =>
      simp only [List.mem_singleton] at h
      exact ⟨n, h10, h⟩
    · next h10 =>
      rcases List.mem_append.mp h with hl | hr
      · exact ih (n / 10) (Nat.div_lt_self (by omega) (by omega)) hl
      · simp only [List.mem_singleton] at hr
        exact ⟨n % 10, Nat.mod_lt n (by omega), hr⟩

/-- The decimal digit list of n < 10 ^ k has at most k digits. -/
theorem natDigits_length {k : Nat} : ∀ {n : Nat}, 0 < k → n < 10 ^ k →
    (natDigits n).length ≤ k := by
  induction k with
  | zero => intro n hk; omega
  | succ k ih =>
    intro n _ hn
    rw [natDigits]
    split
    · simp
    · next h10 =>
      have hk : 0 < k := by
        by_contra hc
        have : k = 0 := by omega
        subst this
        simp [pow_succ] at hn
        omega
      have hdiv : n / 10 < 10 ^ k := by
        apply (Nat.div_lt_iff_lt_mul (by omega)).mpr
        calc n < 10 ^ (k + 1) := hn
          _ = 10 ^ k * 10 := by rw [pow_succ]
      have := ih hk hdiv
      simp only [List.length_append, List.length_singleton]
      omega

/-- Padding to width 8 yields exactly 8 characters when the input fits. -/
theorem pad8_length {ds : List Char} (h : ds.length ≤ 8) : (pad8 ds).length = 8 := by
  simp [pad8]
  omega

/-- Every character of a padded digit list is a digit character. -/
theorem mem_pad8 {ds : List Char} {c : Char} (h : c ∈ pad8 ds) :
    c = digitChar 0 ∨ c ∈ ds := by
  rcases List.mem_append.mp h with hl | hr
  · exact Or.inl (List.eq_of_mem_replicate hl)
  · exact Or.inr hr

/-- Accumulating leading zero characters leaves the value at zero. -/
theorem foldl_replicate_zero (k : Nat) :
    List.foldl (fun a c => 10 * a + digitVal c) 0 (List.replicate k (digitChar 0)) = 0 := by
  induction k with
  | zero => rfl
  | succ k ih => simpa [List.replicate_succ] using ih

/-- Zero padding does not change the parsed value. -/
theorem digitsToNat_pad8 (ds : List Char) : digitsToNat (pad8 ds) = digitsToNat ds := by
  simp [pad8, digitsToNat, List.foldl_append, foldl_replicate_zero]

/-- A list all of whose characters satisfy the predicate is its own
longest satisfying run. -/
theorem takeWhile_of_all {p : Char → Bool} : ∀ {l : List Char},
    (∀ c ∈ l, p c = true) → l.takeWhile p = l := by
  intro l
  induction l with
  | nil => intro _; rfl
  | cons a l ih =>
    intro h
    rw [List.takeWhile_cons_of_pos (h a (by simp)), ih (fun c hc => h c (by simp [hc]))]

/-- The rendered 8-digit window parses back to its value, regardless of what
follows it: this is the window the %08d conversion of sscanf consumes. -/
theorem sscanf8dList_pad8 {n : Nat} (h : n < 100000000) (rest : List Char) :
    sscanf8dList (pad8 (natDigits n) ++ rest) = some (n : Int) := by
  have hlen : (pad8 (natDigits n)).length = 8 :=
    pad8_length (natDigits_length (by omega) (by norm_num; omega))
  have hdig : ∀ c ∈ pad8 (natDigits n), ∃ d, d < 10 ∧ c = digitChar d := by
    intro c hc
    rcases mem_pad8 hc with h0 | hm
    · exact ⟨0, by omega, h0⟩
    · exact mem_natDigits hm
  obtain ⟨c0, tl, hcons⟩ : ∃ c0 tl, pad8 (natDigits n) = c0 :: tl := by
    cases hp : pad8 (natDigits n) with
    | nil => rw [hp] at hlen; simp at hlen
    | cons a l => exact ⟨a, l, rfl⟩
  obtain ⟨d0, hd0, hc0⟩ := hdig c0 (by rw [hcons]; simp)
  have hnws : c0.isWhitespace = false := by rw [hc0]; exact not_whitespace_digitChar hd0
  have hdrop : ((pad8 (natDigits n) ++ rest).dropWhile (fun c => c.isWhitespace))
      = pad8 (natDigits n) ++ rest := by
    rw [hcons, List.cons_append, List.dropWhile_cons_of_neg (by simp [hnws])]
  have htake : (pad8 (natDigits n) ++ rest).take 8 = pad8 (natDigits n) :=
    List.take_left' hlen
  rw [sscanf8dList, hdrop, htake, hcons, sscanf8dWindow]
  have hsigns := digitChar_ne_sign hd0
  rw [if_neg (hc0 ▸ hsigns.1), if_neg (hc0 ▸ hsigns.2), ← hcons]
  have hall : ∀ c ∈ pad8 (natDigits n), c.isDigit = true := by
    intro c hc
    obtain ⟨d, hd, hcd⟩ := hdig c hc
    rw [hcd]
    exact isDigit_digitChar hd
  rw [scanDigits]
  simp only [takeWhile_of_all hall]
  rw [if_neg (by rw [hcons]; simp)]
  simp [digitsToNat_pad8, digitsToNat_natDigits]

/-- When a scan has already completed, the lazy scan is a no-op. -/
theorem ensureScanned_of_completed {sf : SeqFile} {fs : DirListing}
    (h : sf.scanDirCompleted = true) : ensureScanned sf fs = sf := by
  simp [ensureScanned, h]

/-- With a completed scan, addFileToQueue appends at the tail and leaves the
other fields alone apart from the lastFileNum fold. -/
theorem addFileToQueue_eq {sf : SeqFile} {fs : DirListing} {n : Int}
    (h : sf.scanDirCompleted = true) :
    addFileToQueue sf fs n =
      { sf with lastFileNum := if n > sf.lastFileNum then n else sf.lastFileNum,
                queue := sf.queue ++ [n] } := by
  rw [addFileToQueue, ensureScanned_of_completed h]
  by_cases hc : n > sf.lastFileNum <;> simp [hc]

/-- Enqueuing a list of numbers appends them in order and keeps the scan
flag set. -/
theorem enqueueAll_queue {ns : List Int} : ∀ (sf : SeqFile) (fs : DirListing),
    sf.scanDirCompleted = true →
    (enqueueAll sf fs ns).queue = sf.queue ++ ns ∧
    (enqueueAll sf fs ns).scanDirCompleted = true := by
  induction ns with
  | nil => intro sf fs h; simpa [enqueueAll] using h
  | cons a l ih =>
    intro sf fs h
    rw [enqueueAll, List.foldl_cons, addFileToQueue_eq h]
    have := ih { sf with
      lastFileNum := if a > sf.lastFileNum then a else sf.lastFileNum,
      queue := sf.queue ++ [a] } fs h
    rw [enqueueAll] at this
    simpa using this

/-- With a completed scan and a nonempty queue, a removing dequeue pops the
front and returns it. -/
theorem getFileFromQueue_cons (sf : SeqFile) (fs : DirListing) {a : Int} {rest : List Int}
    (h : sf.scanDirCompleted = true) (hq : sf.queue = a :: rest) :
    getFileFromQueue sf fs true = ({ sf with queue := rest }, a) := by
  rw [getFileFromQueue]
  simp only [ensureScanned_of_completed h, hq]
  rfl

/-- Performing k removing dequeues from a scanned state drops the first k
queue entries and returns them in order. -/
theorem dequeueN_spec : ∀ (k : Nat) (sf : SeqFile) (fs : DirListing),
    sf.scanDirCompleted = true → k ≤ sf.queue.length →
    (dequeueN sf fs k).1 = { sf with queue := sf.queue.drop k } ∧
    (dequeueN sf fs k).2 = sf.queue.take k := by
  intro k
  induction k with
  | zero => intro sf fs h hk; exact ⟨rfl, rfl⟩
  | succ k ih =>
    intro sf fs h hk
    obtain ⟨a, rest, hq⟩ : ∃ a rest, sf.queue = a :: rest := by
      cases hql : sf.queue with
      | nil => rw [hql] at hk; simp at hk
      | cons a rest => exact ⟨a, rest, rfl⟩
    have hrest : k ≤ rest.length := by
      rw [hq] at hk
      simpa using hk
    have hstep := getFileFromQueue_cons sf fs h hq
    have := ih { sf with queue := rest } fs h hrest
    rw [dequeueN, hstep]
    constructor
    · rw [hq, List.drop_succ_cons]
      exact this.1
    · rw [hq, List.take_succ_cons]
      exact congrArg (fun l => a :: l) this.2

/-- Folding the scan loop over directory entries never lowers lastFileNum. -/
theorem scanFold_lastFileNum_mono : ∀ (entries : List DirEntry) (sf : SeqFile),
    sf.lastFileNum ≤ (entries.foldl
      (fun acc e => if e.isRegularFile then scanDirStep acc e.name else acc) sf).lastFileNum := by
  intro entries
  induction entries with
  | nil => intro sf; exact le_refl _
  | cons e l ih =>
    intro sf
    rw [List.foldl_cons]
    refine le_trans ?_ (ih _)
    by_cases hr : e.isRegularFile <;> simp [hr, scanDirStep]
    cases parseFileName sf.filenameExtension e.name with
    | none => simp
    | some m =>
      simp only
      split <;> omega

/-- A scan leaves lastFileNum nonnegative when it was nonnegative before. -/
theorem scanDir_lastFileNum_nonneg {sf : SeqFile} {fs : DirListing}
    (h : 0 ≤ sf.lastFileNum) : 0 ≤ (scanDir sf fs).1.lastFileNum := by
  rw [scanDir]
  split
  · exact h
  · split
    · exact h
    · simp only
      have := scanFold_lastFileNum_mono fs.entries { sf with lastFileNum := 0 }
      simpa using this

/-- The lazy scan leaves lastFileNum nonnegative when it was nonnegative. -/
theorem ensureScanned_lastFileNum_nonneg (sf : SeqFile) (fs : DirListing)
    (h : 0 ≤ sf.lastFileNum) : 0 ≤ (ensureScanned sf fs).lastFileNum := by
  rw [ensureScanned]
  split
  · exact h
  · exact scanDir_lastFileNum_nonneg h

/-- C1: with the scan already completed, enqueuing a list of file numbers
into an empty queue and then dequeuing with removal returns exactly that
list in enqueue order, and after k removing dequeues the queue length is the
number enqueued minus k, so each successful removing dequeue lowers
getQueueLen by exactly one. -/
theorem fifo_dequeue_order (sf : SeqFile) (fs : DirListing) (ns : List Int)
    (h1 : sf.scanDirCompleted = true) (h2 : sf.queue = []) :
    (dequeueN (enqueueAll sf fs ns) fs ns.length).2 = ns ∧
    ∀ k, k ≤ ns.length →
      getQueueLen (dequeueN (enqueueAll sf fs ns) fs k).1 = ns.length - k := by
  obtain ⟨hqq, hflag⟩ := enqueueAll_queue sf fs h1
  rw [h2, List.nil_append] at hqq
  constructor
  · have := (dequeueN_spec ns.length (enqueueAll sf fs ns) fs hflag (by rw [hqq])).2
    rw [this, hqq, List.take_length]
  · intro k hk
    have := (dequeueN_spec k (enqueueAll sf fs ns) fs hflag (by rw [hqq]; exact hk)).1
    rw [getQueueLen, this]
    simp [hqq]

/-- C1 witness: three enqueues then three removing dequeues at a concrete
scanned state. -/
theorem fifo_dequeue_order_witness :
    (dequeueN (enqueueAll ⟨"/usr/q", "", true, 0, []⟩ ⟨true, []⟩ [3, 1, 2]) ⟨true, []⟩ 3).2
      = [3, 1, 2] ∧
    ∀ k, k ≤ 3 →
      getQueueLen (dequeueN (enqueueAll ⟨"/usr/q", "", true, 0, []⟩ ⟨true, []⟩ [3, 1, 2])
        ⟨true, []⟩ k).1 = 3 - k := by
  have := fifo_dequeue_order ⟨"/usr/q", "", true, 0, []⟩ ⟨true, []⟩ [3, 1, 2] rfl rfl
  simpa using this

/-- C2: removeAll empties the queue, resets the high-water mark lastFileNum
to 0 and clears scanDirCompleted, and the next reserveFile call, after the
implicit rescan of the recreated empty directory, returns 1. -/
theorem removeAll_resets (sf : SeqFile) (fs : DirListing)
    (hdir : 1 < sf.dirPath.length) (hok : fs.createAndOpenOk = true)
    (hent : fs.entries = []) :
    getQueueLen (removeAll sf) = 0 ∧
    (removeAll sf).lastFileNum = 0 ∧
    (removeAll sf).scanDirCompleted = false ∧
    (reserveFile (removeAll sf) fs).2 = 1 := by
  refine ⟨rfl, rfl, rfl, ?_⟩
  rw [reserveFile]
  have h1 : ensureScanned (removeAll sf) fs = (scanDir (removeAll sf) fs).1 := by
    rw [ensureScanned]
    simp [removeAll]
  rw [h1, scanDir]
  rw [if_neg (show ¬ ((removeAll sf).dirPath.length ≤ 1) from by simp only [removeAll]; omega)]
  rw [if_neg (by simp [hok])]
  simp [removeAll, hent]

/-- C2 witness: removeAll on a concrete populated state, then reserveFile
against an empty directory listing. -/
theorem removeAll_resets_witness :
    getQueueLen (removeAll ⟨"/usr/q", "", true, 5, [2, 3]⟩) = 0 ∧
    (removeAll ⟨"/usr/q", "", true, 5, [2, 3]⟩).lastFileNum = 0 ∧
    (removeAll ⟨"/usr/q", "", true, 5, [2, 3]⟩).scanDirCompleted = false ∧
    (reserveFile (removeAll ⟨"/usr/q", "", true, 5, [2, 3]⟩) ⟨true, []⟩).2 = 1 :=
  removeAll_resets ⟨"/usr/q", "", true, 5, [2, 3]⟩ ⟨true, []⟩ (by decide) rfl rfl

/-- C3 counterexample: addFileToQueue performs no validity check, so calling
it with the sentinel value 0 places 0 in the queue, contradicting the claim
that no operation ever does so. -/
theorem sentinel_zero_enqueued :
    0 ∈ (addFileToQueue ⟨"/usr/q", "", true, 5, [3]⟩ ⟨true, []⟩ 0).queue := by
  decide

/-- C3 amended: reserveFile never hands out the sentinel (it returns at
least 1 whenever lastFileNum is nonnegative, which holds in every reachable
state), while the queue stays free of 0 only under the documented discipline
that callers enqueue nonzero numbers: addFileToQueue itself performs no
check, and scanDir can queue 0 when a filename parses to 0. -/
theorem sentinel_zero_amended (sf : SeqFile) (fs : DirListing) (n : Int)
    (hl : 0 ≤ sf.lastFileNum) :
    0 < (reserveFile sf fs).2 ∧
    (sf.scanDirCompleted = true → n ≠ 0 → 0 ∉ sf.queue →
      0 ∉ (addFileToQueue sf fs n).queue) := by
  constructor
  · rw [reserveFile]
    have := ensureScanned_lastFileNum_nonneg sf fs hl
    omega
  · intro hscan hn hq
    rw [addFileToQueue_eq hscan]
    simp only [List.mem_append, List.mem_singleton]
    rintro (hc | hc)
    · exact hq hc
    · exact hn hc.symm

/-- C3 amended witness: a concrete scanned state with a nonnegative
high-water mark and the nonzero number 7. -/
theorem sentinel_zero_amended_witness :
    0 < (reserveFile ⟨"/usr/q", "", true, 0, []⟩ ⟨true, []⟩).2 ∧
    ((⟨"/usr/q", "", true, 0, []⟩ : SeqFile).scanDirCompleted = true → (7 : Int) ≠ 0 →
      0 ∉ (⟨"/usr/q", "", true, 0, []⟩ : SeqFile).queue →
      0 ∉ (addFileToQueue ⟨"/usr/q", "", true, 0, []⟩ ⟨true, []⟩ 7).queue) :=
  sentinel_zero_amended ⟨"/usr/q", "", true, 0, []⟩ ⟨true, []⟩ 7 (by decide)

/-- C7 counterexample: a scan of a directory containing file 00000005 raises
lastFileNum to 5, and a second scan after the file has disappeared resets
lastFileNum to 0: a scanDir step leaves lastFileNum smaller than before the
step, with no removeAll involved. -/
theorem lastFileNum_decreases_on_rescan :
    ((scanDir ⟨"/usr/q", "", false, 0, []⟩ ⟨true, [⟨"00000005", true⟩]⟩).1.lastFileNum = 5) ∧
    ((scanDir (scanDir ⟨"/usr/q", "", false, 0, []⟩ ⟨true, [⟨"00000005", true⟩]⟩).1
        ⟨true, []⟩).1.lastFileNum = 0) := by
  decide

/-- C7 amended: lastFileNum never decreases across reserveFile,
addFileToQueue or getFileFromQueue once a scan has completed; scanDir
(explicit, or implicit while scanDirCompleted is false) is the other
exception besides removeAll, since it resets lastFileNum to 0 and recomputes
it from the directory contents. -/
theorem lastFileNum_monotone (sf : SeqFile) (fs : DirListing) (n : Int) (r : Bool)
    (h : sf.scanDirCompleted = true) :
    sf.lastFileNum ≤ (reserveFile sf fs).1.lastFileNum ∧
    sf.lastFileNum ≤ (addFileToQueue sf fs n).lastFileNum ∧
    sf.lastFileNum ≤ (getFileFromQueue sf fs r).1.lastFileNum := by
  refine ⟨?_, ?_, ?_⟩
  · rw [reserveFile, ensureScanned_of_completed h]
    simp
  · rw [addFileToQueue_eq h]
    simp only
    split <;> omega
  · rw [getFileFromQueue]
    simp only [ensureScanned_of_completed h]
    cases sf.queue with
    | nil => exact le_refl _
    | cons a rest => cases r <;> simp

/-- C7 amended witness: a concrete scanned state with lastFileNum 5. -/
theorem lastFileNum_monotone_witness :
    (⟨"/usr/q", "", true, 5, [4]⟩ : SeqFile).lastFileNum ≤
      (reserveFile ⟨"/usr/q", "", true, 5, [4]⟩ ⟨true, []⟩).1.lastFileNum ∧
    (⟨"/usr/q", "", true, 5, [4]⟩ : SeqFile).lastFileNum ≤
      (addFileToQueue ⟨"/usr/q", "", true, 5, [4]⟩ ⟨true, []⟩ 2).lastFileNum ∧
    (⟨"/usr/q", "", true, 5, [4]⟩ : SeqFile).lastFileNum ≤
      (getFileFromQueue ⟨"/usr/q", "", true, 5, [4]⟩ ⟨true, []⟩ true).1.lastFileNum :=
  lastFileNum_monotone ⟨"/usr/q", "", true, 5, [4]⟩ ⟨true, []⟩ 2 true rfl

/-- C8: with a completed scan and an empty queue, getFileFromQueue returns
the sentinel 0 and leaves the whole state unchanged, for both the peeking
and the removing variant. -/
theorem empty_queue_returns_sentinel (sf : SeqFile) (fs : DirListing) (r : Bool)
    (h1 : sf.scanDirCompleted = true) (h2 : sf.queue = []) :
    getFileFromQueue sf fs r = (sf, 0) := by
  rw [getFileFromQueue]
  simp only [ensureScanned_of_completed h1, h2]

/-- C8 witness: a concrete scanned state with an empty queue. -/
theorem empty_queue_returns_sentinel_witness :
    getFileFromQueue ⟨"/usr/q", "", true, 5, []⟩ ⟨true, []⟩ true
      = (⟨"/usr/q", "", true, 5, []⟩, 0) :=
  empty_queue_returns_sentinel ⟨"/usr/q", "", true, 5, []⟩ ⟨true, []⟩ true rfl rfl

/-- C10: with a completed scan, addFileToQueue appends the given number at
the tail of the queue with no duplicate check, growing getQueueLen by
exactly one even when the number is already present. -/
theorem addFileToQueue_appends (sf : SeqFile) (fs : DirListing) (n : Int)
    (h : sf.scanDirCompleted = true) :
    (addFileToQueue sf fs n).queue = sf.queue ++ [n] ∧
    getQueueLen (addFileToQueue sf fs n) = getQueueLen sf + 1 := by
  rw [getQueueLen, getQueueLen, addFileToQueue_eq h]
  simp

/-- C10 witness: enqueuing 7 into a queue already containing 7 duplicates
it. -/
theorem addFileToQueue_appends_witness :
    (addFileToQueue ⟨"/usr/q", "", true, 7, [7]⟩ ⟨true, []⟩ 7).queue = [7] ++ [7] ∧
    getQueueLen (addFileToQueue ⟨"/usr/q", "", true, 7, [7]⟩ ⟨true, []⟩ 7)
      = getQueueLen ⟨"/usr/q", "", true, 7, [7]⟩ + 1 :=
  addFileToQueue_appends ⟨"/usr/q", "", true, 7, [7]⟩ ⟨true, []⟩ 7 rfl

/-- C4: scanning a directory listing 00000005.dat, 00000002.dat,
0000000X.dat with the default pattern and extension dat: the claim expects
the malformed third name to be skipped and the queue to be exactly 5, 2,
but sscanf with %08d parses its seven leading zeros, returns 1 with value 0,
and the code queues the sentinel 0, producing queue 5, 2, 0 (lastFileNum is
5 as claimed). -/
theorem scan_example_queues_sentinel :
    (scanDir ⟨"/usr/q", "dat", false, 0, []⟩
      ⟨true, [⟨"00000005.dat", true⟩, ⟨"00000002.dat", true⟩,
        ⟨"0000000X.dat", true⟩]⟩).1.queue = [5, 2, 0] ∧
    (scanDir ⟨"/usr/q", "dat", false, 0, []⟩
      ⟨true, [⟨"00000005.dat", true⟩, ⟨"00000002.dat", true⟩,
        ⟨"0000000X.dat", true⟩]⟩).1.lastFileNum = 5 := by
  decide

/-- C5: for every positive file number below 10 ^ 8 (so that the %08d
rendering is an unambiguous 8-digit field) and any configured extension,
parsing the rendered filename with the scan-side acceptance test yields the
number back. -/
theorem render_parse_roundtrip (sf : SeqFile) (n : Int)
    (h1 : 0 < n) (h2 : n < 100000000) :
    parseFileName sf.filenameExtension (getNameForFileNum sf n none) = some n := by
  have hm : n.toNat < 100000000 := by omega
  have hnn : ¬ (n < 0) := by omega
  have hfmt : format8d n = String.mk (pad8 (natDigits n.toNat)) := by
    rw [format8d, if_neg hnn]
  have hcast : ((n.toNat : Nat) : Int) = n := Int.toNat_of_nonneg (by omega)
  rw [getNameForFileNum]
  by_cases hext : sf.filenameExtension.isEmpty
  · rw [getNameWithOptionalExt, if_pos hext, parseFileName]
    have hscan : sscanf8d (format8d n) = some n := by
      rw [hfmt, sscanf8d]
      show sscanf8dList (pad8 (natDigits n.toNat)) = some n
      have := sscanf8dList_pad8 hm []
      rw [List.append_nil] at this
      rw [this, hcast]
    rw [hscan]
    simp [hext]
  · rw [getNameWithOptionalExt, if_neg hext, parseFileName]
    have hdot : (("." : String).data) = ['.'] := rfl
    have hdata : (format8d n ++ "." ++ sf.filenameExtension).data
        = pad8 (natDigits n.toNat) ++ ('.' :: sf.filenameExtension.data) := by
      rw [String.data_append, String.data_append, hfmt, hdot]
      simp
    have hscan : sscanf8d (format8d n ++ "." ++ sf.filenameExtension) = some n := by
      rw [sscanf8d, hdata, sscanf8dList_pad8 hm, hcast]
    rw [hscan]
    have hsuf : particleEndsWith (format8d n ++ "." ++ sf.filenameExtension)
        sf.filenameExtension = true := by
      rw [particleEndsWith, hdata]
      have hassoc : pad8 (natDigits n.toNat) ++ ('.' :: sf.filenameExtension.data)
          = (pad8 (natDigits n.toNat) ++ ['.']) ++ sf.filenameExtension.data := by
        simp
      rw [hassoc]
      exact (List.isSuffixOf_iff_suffix).mpr (List.suffix_append _ _)
    simp [hsuf]

/-- C5 witness: file number 42 with configured extension dat renders to
00000042.dat, which parses back to 42. -/
theorem render_parse_roundtrip_witness :
    parseFileName "dat" (getNameForFileNum ⟨"/usr/q", "dat", true, 0, []⟩ 42 none)
      = some 42 :=
  render_parse_roundtrip ⟨"/usr/q", "dat", true, 0, []⟩ 42 (by decide) (by decide)

/-- C6: in the registry variant, getInstance computes the proper result in
its local variable (found instance, or freshly constructed and registered
instance) but the function body ends without any return statement, as does
findByPath, so no valid instance pointer is returned to the caller: the
embedding records the absent return value as none, on both the fresh-create
path and the lookup path. -/
theorem getInstance_missing_return :
    getInstanceReturned [] 1 "/usr/q" = none ∧
    (getInstanceComputed [] 1 "/usr/q").1 = 1 ∧
    (getInstanceComputed [] 1 "/usr/q").2 = [(1, "/usr/q")] ∧
    getInstanceReturned [(1, "/usr/q")] 2 "/usr/q" = none ∧
    (getInstanceComputed [(1, "/usr/q")] 2 "/usr/q").1 = 1 := by
  decide

/-- C9 counterexample: withDirPath removes only one trailing slash, so on
the input /usr/q// the stored path /usr/q/ still ends with a separator and a
second application changes it again: normalization is neither
slash-free nor idempotent on this input. -/
theorem withDirPath_double_slash :
    particleEndsWith (withDirPath "/usr/q//") "/" = true ∧
    withDirPath (withDirPath "/usr/q//") ≠ withDirPath "/usr/q//" := by
  decide

/-- C9 amended: for every input that does not end in a double separator, the
stored path never ends with a separator and withDirPath is idempotent;
inputs with k trailing slashes keep k - 1 of them, since the source strips
exactly one. -/
theorem withDirPath_normalizes (s : String)
    (h : particleEndsWith s "//" = false) :
    particleEndsWith (withDirPath s) "/" = false ∧
    withDirPath (withDirPath s) = withDirPath s := by
  by_cases hs : particleEndsWith s "/" = true
  · have hsuffix : ['/'] <:+ s.data := by
      rw [particleEndsWith] at hs
      exact (List.isSuffixOf_iff_suffix).mp hs
    obtain ⟨t, ht⟩ := hsuffix
    have hw : withDirPath s = String.mk t := by
      rw [withDirPath, if_pos (by simp [hs]), ← ht, List.dropLast_concat]
    have htno : particleEndsWith (String.mk t) "/" = false := by
      cases hp : particleEndsWith (String.mk t) "/" with
      | false => rfl
      | true =>
        rw [particleEndsWith] at hp
        obtain ⟨u, hu⟩ := (List.isSuffixOf_iff_suffix).mp hp
        have hu2 : u ++ ['/'] = t := hu
        have hds : ['/', '/'] <:+ s.data := by
          refine ⟨u, ?_⟩
          rw [← ht, ← hu2]
          simp
        have : particleEndsWith s "//" = true := by
          rw [particleEndsWith]
          exact (List.isSuffixOf_iff_suffix).mpr hds
        rw [h] at this
        exact absurd this (by simp)
    refine ⟨by rw [hw]; exact htno, ?_⟩
    rw [hw, withDirPath, if_neg (by simp [htno])]
  · have hsf : particleEndsWith s "/" = false := by
      cases hp : particleEndsWith s "/" with
      | false => rfl
      | true => exact absurd hp hs
    have hid : withDirPath s = s := by
      rw [withDirPath, if_neg (by simp [hsf])]
    rw [hid]
    exact ⟨hsf, hid⟩

/-- C9 amended witness: a single trailing slash is removed for good. -/
theorem withDirPath_normalizes_witness :
    particleEndsWith (withDirPath "/usr/q/") "/" = false ∧
    withDirPath (withDirPath "/usr/q/") = withDirPath "/usr/q/" :=
  withDirPath_normalizes "/usr/q/" (by decide)

end SeqFileRK
